import Mathlib

/-!
Verification of the AsyncResult (`TaskEither`) core of this repository.

The repository's `TaskEither` module composes two primitives that the spec
describes but whose code lives outside the files at hand: a deferred
computation primitive (`Task`, an async computation that cannot fail) and a
result primitive (`Either`, a tagged two-variant union), glued by the
`EitherT` transformer.  Per the spec, "parallel" only means concurrently
initiated on a single-threaded event loop; within this development a `Task`
is therefore embedded as a pair of an ordered event log (the side effects it
performs, in program order) and the value it settles to.  Laziness of the
thunk is irrelevant to the properties proved here: every claim is about the
settled `Result` and about which sub-computations run (visible in the log and
in the independence of results from never-invoked arguments).
-/

namespace FpTs

/-- Modelled from the spec (the `Either` module is not part of the given
sources): `Result<E, A>` is a tagged union with exactly the two variants
`Failure(E)` (tag `Left`) and `Success(A)` (tag `Right`), immutable once
constructed. -/
inductive Either (ε α : Type) : Type where
  | left (e : ε) : Either ε α
  | right (a : α) : Either ε α
  deriving DecidableEq

namespace Either

variable {ε α β : Type}

/-- Modelled from the spec: tag test used by the source (`E.isLeft`). -/
def isLeft : Either ε α → Bool
  | .left _ => true
  | .right _ => false

/-- Modelled from the spec: tag test (`E.isRight`). -/
def isRight : Either ε α → Bool
  | .left _ => false
  | .right _ => true

/-- Modelled from the spec: `E.map` transforms the success value, leaving
failure untouched. -/
def map (f : α → β) : Either ε α → Either ε β
  | .left e => .left e
  | .right a => .right (f a)

/-- Modelled from the spec (the `Either` module is not in the sources):
`E.ap` returns the function-side failure if present, else the value-side
failure, else applies the function. -/
def ap : Either ε (α → β) → Either ε α → Either ε β
  | .left e, _ => .left e
  | .right _, .left e => .left e
  | .right f, .right a => .right (f a)

/-- Modelled from the spec (`E.getApplicativeValidation(S).ap` is not in the
sources): instead of short-circuiting on the first failure, two failures are
combined with the supplied associative merge, the function-side error first. -/
def apValidation (concat : ε → ε → ε) : Either ε (α → β) → Either ε α → Either ε β
  | .left e1, .left e2 => .left (concat e1 e2)
  | .left e1, .right _ => .left e1
  | .right _, .left e2 => .left e2
  | .right f, .right a => .right (f a)

/-- Modelled from the spec (`E.sequenceArray` is not in the sources): scans
the results in order, returning immediately upon the first detected failure,
otherwise the ordered sequence of successes. -/
def sequenceArray : List (Either ε α) → Either ε (List α)
  | [] => .right []
  | .left e :: _ => .left e
  | .right a :: rest =>
    match sequenceArray rest with
    | .left e => .left e
    | .right as => .right (a :: as)

end Either

/-- Modelled from the spec (the `Task` module is not in the sources): a
deferred computation that cannot fail, embedded as the ordered log of the
side effects it performs together with the value it settles to.  `σ` is the
type of side-effect events. -/
abbrev Task (σ α : Type) : Type := List σ × α

namespace Task

variable {σ α β : Type}

/-- Modelled from the spec: `T.of` settles immediately with `a`, performing
no effects. -/
def of (a : α) : Task σ α := ([], a)

/-- Modelled from the spec: `T.map` transforms the settled value; effects are
unchanged. -/
def map (f : α → β) (t : Task σ α) : Task σ β := (t.1, f t.2)

/-- Modelled from the spec: `T.chain` runs `t`, then runs `f` on its value;
effects happen in that order. -/
def chain (f : α → Task σ β) (t : Task σ α) : Task σ β :=
  (t.1 ++ (f t.2).1, (f t.2).2)

/-- Modelled from the spec: `T.ApplyPar.ap` starts both computations
(function side first, mirroring the order in which the host starts them) and
applies the settled function to the settled value. -/
def ap (fab : Task σ (α → β)) (fa : Task σ α) : Task σ β :=
  (fab.1 ++ fa.1, fab.2 fa.2)

/-- Modelled from the spec (`T.traverseArrayWithIndex` is not in the
sources): starts every element's computation, collecting the settled values
in positional order; logs are recorded in input order. -/
def traverseArrayWithIndexFrom (f : Nat → α → Task σ β) : Nat → List α → Task σ (List β)
  | _, [] => Task.of []
  | i, a :: rest =>
    let t := f i a
    let r := traverseArrayWithIndexFrom f (i + 1) rest
    (t.1 ++ r.1, t.2 :: r.2)

/-- Modelled from the spec: see `Task.traverseArrayWithIndexFrom`; indices
start at `0`. -/
def traverseArrayWithIndex (f : Nat → α → Task σ β) (arr : List α) : Task σ (List β) :=
  traverseArrayWithIndexFrom f 0 arr

end Task

/-- `TaskEither<E, A>` from the source: a `Task` settling to an
`Either E A`. -/
abbrev TaskEither (σ ε α : Type) : Type := Task σ (Either ε α)

namespace TE

variable {σ ε α β γ : Type}

/-- Source `left` (`ET.left_(T.Pointed)`): an already-resolved AsyncResult
wrapping `Failure(e)`. -/
def left (e : ε) : TaskEither σ ε α := Task.of (Either.left e)

/-- Source `right` (`ET.right_(T.Pointed)`): an already-resolved AsyncResult
wrapping `Success(a)`. -/
def right (a : α) : TaskEither σ ε α := Task.of (Either.right a)

/-- Source `of`, equivalent to `right`. -/
def of (a : α) : TaskEither σ ε α := right a

/-- Source `map` (`ET.map_(T.Functor)`): transforms the success value,
leaving failure untouched. -/
def map (f : α → β) (fa : TaskEither σ ε α) : TaskEither σ ε β :=
  Task.map (Either.map f) fa

/-- Source `chain` (`ET.chain_(T.Monad)`, the `EitherT` layer modelled from
the spec): runs the computation and, if successful, feeds the value into `f`
to obtain the next AsyncResult; on failure it settles to that failure without
invoking `f`. -/
def chain (f : α → TaskEither σ ε β) (ma : TaskEither σ ε α) : TaskEither σ ε β :=
  Task.chain
    (fun e =>
      match e with
      | Either.left e => Task.of (Either.left e)
      | Either.right a => f a)
    ma

/-- Source `ap` (`ET.ap_(T.ApplyPar)`, the generic `ap_` composition modelled
from the spec): runs both computations and combines their settled results
with `Either.ap`. -/
def ap (fa : TaskEither σ ε α) (fab : TaskEither σ ε (α → β)) : TaskEither σ ε β :=
  Task.ap (Task.map (fun gab => fun ga => Either.ap gab ga) fab) fa

/-- Source `bracket`: runs `acquire`; on its failure returns that failure
without calling `use` or `release`; otherwise runs `use a`, captures its
outcome as a value (`T.map Either.right`, so it cannot escape), then
unconditionally runs `release a outcome`; if `release` fails its failure is
the final result, otherwise the final result is the captured outcome
(`E.isLeft e ? left e.left : of e.right` rendered as a match). -/
def bracket (acquire : TaskEither σ ε α) (use : α → TaskEither σ ε β)
    (release : α → Either ε β → TaskEither σ ε Unit) : TaskEither σ ε β :=
  chain
    (fun a =>
      chain
        (fun e =>
          chain
            (fun _ =>
              match e with
              | Either.left l => left l
              | Either.right b => of b)
            (release a e))
        (Task.map Either.right (use a)))
    acquire

/-- Source `traverseSeqArrayWithIndex`, rendered with an explicit running
index: awaits each element's computation one at a time in input order; if one
settles to a failure, that failure is returned at once (the remaining
elements are never started), otherwise the success is appended and the loop
continues. -/
def traverseSeqArrayWithIndexFrom (f : Nat → α → TaskEither σ ε β) :
    Nat → List α → TaskEither σ ε (List β)
  | _, [] => Task.of (Either.right [])
  | i, a :: rest =>
    let e := f i a
    match e.2 with
    | Either.left err => (e.1, Either.left err)
    | Either.right b =>
      let r := traverseSeqArrayWithIndexFrom f (i + 1) rest
      (e.1 ++ r.1, Either.map (fun bs => b :: bs) r.2)

/-- Source `traverseSeqArrayWithIndex`: the loop starts at index `0`. -/
def traverseSeqArrayWithIndex (f : Nat → α → TaskEither σ ε β)
    (arr : List α) : TaskEither σ ε (List β) :=
  traverseSeqArrayWithIndexFrom f 0 arr

/-- Source `traverseSeqArray`: `traverseSeqArrayWithIndex` ignoring the
index. -/
def traverseSeqArray (f : α → TaskEither σ ε β) :
    List α → TaskEither σ ε (List β) :=
  traverseSeqArrayWithIndex (fun _ a => f a)

/-- Source `sequenceSeqArray`: `traverseSeqArray identity`. -/
def sequenceSeqArray : List (TaskEither σ ε α) → TaskEither σ ε (List α) :=
  traverseSeqArray id

/-- Source `traverseArrayWithIndex`:
`pipe(arr, T.traverseArrayWithIndex(f), T.map(E.sequenceArray))`. -/
def traverseArrayWithIndex (f : Nat → α → TaskEither σ ε β)
    (arr : List α) : TaskEither σ ε (List β) :=
  Task.map Either.sequenceArray (Task.traverseArrayWithIndex f arr)

/-- Source `traverseArray`: `traverseArrayWithIndex` ignoring the index. -/
def traverseArray (f : α → TaskEither σ ε β) :
    List α → TaskEither σ ε (List β) :=
  traverseArrayWithIndex (fun _ a => f a)

/-- Source `sequenceArray`: `traverseArray(identity)`. -/
def sequenceArray : List (TaskEither σ ε α) → TaskEither σ ε (List α) :=
  traverseArray id

/-- Source `getApplicativeTaskValidation(A, S)`, modelled as the `ap` field
of the returned instance (the record plumbing carries no behaviour):
`ap_(A, E.getApplicativeValidation(S))`, i.e. the `Task` apply composed with
the failure-accumulating `Either` apply; the generic `ap_` composition and
the `Task` apply are modelled from the spec. -/
def getApplicativeTaskValidation (concat : ε → ε → ε)
    (fab : TaskEither σ ε (α → β)) (fa : TaskEither σ ε α) : TaskEither σ ε β :=
  Task.ap (Task.map (fun gab => fun ga => Either.apValidation concat gab ga) fab) fa

end TE

/-- Modelled from the spec: the possible behaviours of the host-level
deferred operation handed to `tryCatch` — it may resolve with a value, reject
with a reason, or throw synchronously when started. -/
inductive DeferredOutcome (τ ρ α : Type) : Type where
  | resolves (a : α) : DeferredOutcome τ ρ α
  | rejects (r : ρ) : DeferredOutcome τ ρ α
  | throws (x : τ) : DeferredOutcome τ ρ α

/-- Modelled from the spec: what invoking a wrapped computation does at the
host level — either it settles to a `Result`, or a synchronous exception
escapes uncaught. -/
inductive RunOutcome (τ ε α : Type) : Type where
  | settled (r : Either ε α) : RunOutcome τ ε α
  | threw (x : τ) : RunOutcome τ ε α

/-- Source `tryCatch` (the spec's `fromDeferredFailable`):
`() => f().then(E.right, reason => E.left(onRejected(reason)))` — a
resolution settles to `Success`, a rejection settles to
`Failure (onRejected reason)`, and a synchronous throw from `f` is not
caught (the `Promise` semantics of `then` is modelled from the spec). -/
def tryCatch {τ ρ ε α : Type} (f : DeferredOutcome τ ρ α) (onRejected : ρ → ε) :
    RunOutcome τ ε α :=
  match f with
  | .resolves a => .settled (Either.right a)
  | .rejects r => .settled (Either.left (onRejected r))
  | .throws x => .threw x

section ClaimsChain

variable {σ ε α β γ : Type}

/-- C1: `chain` on AsyncResult satisfies the monad laws: `chain f (right a)`
equals `f a` (left identity), `chain right m` equals `m` (right identity),
and `chain g (chain f m)` equals `chain (fun x => chain g (f x)) m`
(associativity).  Equality here is of the embedded computations, which in
particular settle to the same `Result`. -/
theorem chain_monad_laws (σ ε α β γ : Type) (a : α)
    (f : α → TaskEither σ ε β) (g : β → TaskEither σ ε γ) (m : TaskEither σ ε α) :
    TE.chain f (TE.right a) = f a
      ∧ TE.chain TE.right m = m
      ∧ TE.chain g (TE.chain f m) = TE.chain (fun x => TE.chain g (f x)) m := by
  refine ⟨?_, ?_, ?_⟩
  · simp [TE.chain, TE.right, Task.chain, Task.of]
  · obtain ⟨l, v⟩ := m
    cases v <;> simp [TE.chain, TE.right, Task.chain, Task.of]
  · obtain ⟨l, v⟩ := m
    cases v <;> simp [TE.chain, Task.chain, Task.of, List.append_assoc]

/-- C2: `chain` short-circuits on failure: for every error `e` and every
Kleisli function `f`, `chain f (left e)` equals `left e`.  Since `f` is
universally quantified and absent from the right-hand side, the settled
result (and the effect log) is independent of `f`: `f` is never invoked on
the failure path. -/
theorem chain_short_circuits_on_left (σ ε α β : Type) (e : ε)
    (f : α → TaskEither σ ε β) :
    TE.chain f (TE.left e) = TE.left e := by
  simp [TE.chain, TE.left, Task.chain, Task.of]

end ClaimsChain

/-- C3: `bracket acquire use release` — if `acquire` fails, that failure is
the result with only `acquire`'s effects (the right-hand side is independent
of the universally quantified `use` and `release`, so neither is invoked);
if `acquire` succeeds, the effect log is exactly `acquire`'s effects, then
`use`'s, then `release`'s once (release runs exactly once whether `use`
succeeded or failed); and the settled result is `release`'s failure when
`release` fails, otherwise `use`'s original outcome. -/
theorem bracket_spec (σ ε α β : Type) (acquire : TaskEither σ ε α)
    (use : α → TaskEither σ ε β) (release : α → Either ε β → TaskEither σ ε Unit) :
    TE.bracket acquire use release =
      match acquire.2 with
      | Either.left e => (acquire.1, Either.left e)
      | Either.right a =>
        (acquire.1 ++ ((use a).1 ++ (release a (use a).2).1),
          match (release a (use a).2).2 with
          | Either.left e2 => Either.left e2
          | Either.right _ => (use a).2) := by
  obtain ⟨la, va⟩ := acquire
  cases va with
  | left e =>
    simp [TE.bracket, TE.chain, Task.chain, Task.of]
  | right a =>
    cases hu : (use a).2 with
    | left eu =>
      cases hr : (release a (use a).2).2 <;>
        simp [TE.bracket, TE.chain, TE.left, TE.of, TE.right, Task.chain, Task.map,
          Task.of, hu, hr] <;>
        simp [hu] at hr <;> simp [hr]
    | right bu =>
      cases hr : (release a (use a).2).2 <;>
        simp [TE.bracket, TE.chain, TE.left, TE.of, TE.right, Task.chain, Task.map,
          Task.of, hu, hr] <;>
        simp [hu] at hr <;> simp [hr]

/-- C4: `fromDeferredFailable` (`tryCatch` in the code) — every rejection
with reason `r` settles to `Failure (onRejected r)` instead of rejecting,
every resolution with value `a` settles to `Success a`, and a synchronous
exception thrown by the wrapped operation is not caught. -/
theorem tryCatch_spec (τ ρ ε α : Type) (onRejected : ρ → ε) (r : ρ) (a : α) (x : τ) :
    tryCatch (DeferredOutcome.rejects r : DeferredOutcome τ ρ α) onRejected
        = RunOutcome.settled (Either.left (onRejected r))
      ∧ tryCatch (DeferredOutcome.resolves a : DeferredOutcome τ ρ α) onRejected
        = RunOutcome.settled (Either.right a)
      ∧ tryCatch (DeferredOutcome.throws x : DeferredOutcome τ ρ α) onRejected
        = RunOutcome.threw x :=
  ⟨rfl, rfl, rfl⟩

section ClaimsTraverse

variable {σ ε α β : Type}

/-- Helper for the sequential traversal claims: once an element fails, the
loop returns that failure and the elements after it are irrelevant. -/
lemma seqFrom_stops (f : α → TaskEither σ ε β) (a : α) (bs : List α) (err : ε)
    (hfail : (f a).2 = Either.left err) (as : List α) :
    ∀ (i : Nat), (∀ x ∈ as, (f x).2.isRight = true) →
      TE.traverseSeqArrayWithIndexFrom (fun _ x => f x) i (as ++ a :: bs)
          = TE.traverseSeqArrayWithIndexFrom (fun _ x => f x) i (as ++ [a])
        ∧ (TE.traverseSeqArrayWithIndexFrom (fun _ x => f x) i (as ++ a :: bs)).2
          = Either.left err := by
  induction as with
  | nil =>
    intro i _
    constructor <;> simp [TE.traverseSeqArrayWithIndexFrom, hfail]
  | cons x as ih =>
    intro i h
    have hx := h x (List.mem_cons_self x as)
    cases hfx : (f x).2 with
    | left e1 => rw [hfx] at hx; simp [Either.isRight] at hx
    | right b =>
      have ihh := ih (i + 1) (fun y hy => h y (List.mem_cons_of_mem x hy))
      constructor
      · simp only [List.cons_append, TE.traverseSeqArrayWithIndexFrom, hfx,
          List.append_eq]
        rw [ihh.1]
      · simp only [List.cons_append, TE.traverseSeqArrayWithIndexFrom, hfx,
          List.append_eq]
        rw [ihh.2]
        simp [Either.map]

/-- C5: `traverseSeqArray f` runs the element computations one at a time in
input order and truly short-circuits at the first failure: if every element
of the prefix `as` succeeds and `f a` fails with `err`, the traversal of
`as ++ a :: bs` is identical to the traversal of `as ++ [a]` — the
computations for the later elements `bs` never start and contribute no
effects — and the settled result is exactly that failure. -/
theorem traverseSeqArray_short_circuit (σ ε α β : Type)
    (f : α → TaskEither σ ε β) (as : List α) (a : α) (bs : List α) (err : ε)
    (hpre : ∀ x ∈ as, (f x).2.isRight = true)
    (hfail : (f a).2 = Either.left err) :
    TE.traverseSeqArray f (as ++ a :: bs) = TE.traverseSeqArray f (as ++ [a])
      ∧ (TE.traverseSeqArray f (as ++ a :: bs)).2 = Either.left err := by
  unfold TE.traverseSeqArray TE.traverseSeqArrayWithIndex
  exact seqFrom_stops f a bs err hfail as 0 hpre

/-- Concrete sequential traversal used to witness C5: fails on the element
`2`, succeeds elsewhere, logging the visited element. -/
def fTest : Nat → TaskEither Nat Nat Nat := fun n =>
  ([n], if n = 2 then Either.left 7 else Either.right n)

/-- Witness for C5 at the spec's example `[1, 2, 3]` with `f` failing on
`2`. -/
theorem traverseSeqArray_short_circuit_witness :
    (∀ x ∈ [1], (fTest x).2.isRight = true) ∧ (fTest 2).2 = Either.left 7
      ∧ (TE.traverseSeqArray fTest ([1] ++ 2 :: [3])).2 = Either.left 7 :=
  ⟨by decide, by decide,
    (traverseSeqArray_short_circuit Nat Nat Nat Nat fTest [1] 2 [3] 7
      (by decide) (by decide)).2⟩

/-- C10: sequential traversal of the empty array succeeds vacuously: for
every `f`, `traverseSeqArray f []` and `sequenceSeqArray []` settle to
`Success []` with no effects; since `f` is universally quantified and absent
from the right-hand side, `f` is never invoked. -/
theorem traverseSeqArray_empty (σ ε α β : Type) (f : α → TaskEither σ ε β) :
    TE.traverseSeqArray f ([] : List α) = TE.right []
      ∧ TE.sequenceSeqArray ([] : List (TaskEither σ ε α)) = TE.right [] :=
  ⟨rfl, rfl⟩

lemma taskTraverseFrom_snd (ts : List (TaskEither σ ε α)) :
    ∀ i, (Task.traverseArrayWithIndexFrom (fun _ t => t) i ts).2 = ts.map Prod.snd := by
  induction ts with
  | nil => intro i; simp [Task.traverseArrayWithIndexFrom, Task.of]
  | cons t ts ih => intro i; simp [Task.traverseArrayWithIndexFrom, ih]

lemma sequenceArray_snd (ts : List (TaskEither σ ε α)) :
    (TE.sequenceArray ts).2 = Either.sequenceArray (ts.map Prod.snd) := by
  simp [TE.sequenceArray, TE.traverseArray, TE.traverseArrayWithIndex,
    Task.traverseArrayWithIndex, Task.map, taskTraverseFrom_snd]

lemma eitherSeq_rights (vs : List α) :
    Either.sequenceArray (vs.map (Either.right : α → Either ε α)) = Either.right vs := by
  induction vs with
  | nil => rfl
  | cons v vs ih => simp [Either.sequenceArray, ih]

lemma eitherSeq_firstLeft (e : ε) (l2 : List (Either ε α)) :
    ∀ l1 : List (Either ε α), (∀ x ∈ l1, x.isRight = true) →
      Either.sequenceArray (l1 ++ Either.left e :: l2) = Either.left e := by
  intro l1
  induction l1 with
  | nil => intro; rfl
  | cons x l1 ih =>
    intro h
    have hx := h x (List.mem_cons_self x l1)
    cases x with
    | left e1 => simp [Either.isRight] at hx
    | right a =>
      have hr := ih (fun y hy => h y (List.mem_cons_of_mem _ hy))
      simp [Either.sequenceArray, hr]

/-- C6: `sequenceArray` settles to the ordered successes when every element
succeeds — if the elements settle (in order) to `Success` of the values
`vs`, the result is `Success vs` — and settles to the failure when an
element fails: if every element before `t` succeeds and `t` settles to
`Failure e`, the result is `Failure e`. -/
theorem sequenceArray_spec (σ ε α : Type) (ts ts1 ts2 : List (TaskEither σ ε α))
    (t : TaskEither σ ε α) (vs : List α) (e : ε)
    (hsucc : ts.map Prod.snd = vs.map Either.right)
    (hpre : ∀ x ∈ ts1, x.2.isRight = true) (hfail : t.2 = Either.left e) :
    (TE.sequenceArray ts).2 = Either.right vs
      ∧ (TE.sequenceArray (ts1 ++ t :: ts2)).2 = Either.left e := by
  constructor
  · rw [sequenceArray_snd, hsucc, eitherSeq_rights]
  · rw [sequenceArray_snd]
    rw [show (ts1 ++ t :: ts2).map Prod.snd
        = ts1.map Prod.snd ++ Either.left e :: ts2.map Prod.snd by
      simp [List.map_append, hfail]]
    exact eitherSeq_firstLeft e (ts2.map Prod.snd) (ts1.map Prod.snd)
      (fun y hy => by
        obtain ⟨x, hx, rfl⟩ := List.mem_map.mp hy
        exact hpre x hx)

/-- Witness for C6 at the spec's examples
`sequenceArray [right 1, right 2] = right [1, 2]` and
`sequenceArray [right 1, left "e"] = left "e"`. -/
theorem sequenceArray_spec_witness :
    ([TE.right 1, TE.right 2] : List (TaskEither Unit String Nat)).map Prod.snd
        = [1, 2].map Either.right
      ∧ (∀ x ∈ ([TE.right 1] : List (TaskEither Unit String Nat)), x.2.isRight = true)
      ∧ (TE.left "e" : TaskEither Unit String Nat).2 = Either.left "e"
      ∧ (TE.sequenceArray ([TE.right 1, TE.right 2] : List (TaskEither Unit String Nat))).2
        = Either.right [1, 2]
      ∧ (TE.sequenceArray
          (([TE.right 1] : List (TaskEither Unit String Nat)) ++ TE.left "e" :: [])).2
        = Either.left "e" :=
  ⟨by decide, by decide, by decide,
    (sequenceArray_spec Unit String Nat [TE.right 1, TE.right 2] [TE.right 1] []
      (TE.left "e") [1, 2] "e" (by decide) (by decide) (by decide)).1,
    (sequenceArray_spec Unit String Nat [TE.right 1, TE.right 2] [TE.right 1] []
      (TE.left "e") [1, 2] "e" (by decide) (by decide) (by decide)).2⟩

end ClaimsTraverse

section ClaimsAp

/-- C7: the applicative produced by `getApplicativeTaskValidation`
accumulates failures instead of short-circuiting: applying a
`Failure e1` function computation to a `Failure e2` value computation yields
the single `Failure (concat e1 e2)`, the semigroup combination of both
errors; with string concatenation as the merge, two lefts `"a"` and `"b"`
produce the left `"ab"`, the concatenation of both error strings. -/
theorem getApplicativeTaskValidation_accumulates (σ ε α β : Type)
    (concat : ε → ε → ε) (l1 l2 : List σ) (e1 e2 : ε) :
    TE.getApplicativeTaskValidation concat
        ((l1, Either.left e1) : TaskEither σ ε (α → β)) (l2, Either.left e2)
        = (l1 ++ l2, Either.left (concat e1 e2))
      ∧ TE.getApplicativeTaskValidation (fun x y => x ++ y)
        (([], Either.left "a") : TaskEither Unit String (Nat → Nat))
        ([], Either.left "b")
        = ([], Either.left "ab") :=
  ⟨by simp [TE.getApplicativeTaskValidation, Task.ap, Task.map, Either.apValidation],
    rfl⟩

/-- C8: the parallel `ap` never accumulates failures and selects the
propagated failure by a fixed deterministic policy — the function-side
failure wins when present, otherwise the value-side failure is propagated.
In particular when both sides fail the result is exactly the function side's
single failure, not a combination of the two errors, and being a pure
function of the two settled inputs the selection is the same on every run of
the same pair. -/
theorem ap_failure_policy (σ ε α β : Type)
    (fab : TaskEither σ ε (α → β)) (fa : TaskEither σ ε α) :
    (∀ e, fab.2 = Either.left e → (TE.ap fa fab).2 = Either.left e)
      ∧ (∀ g e, fab.2 = Either.right g → fa.2 = Either.left e →
        (TE.ap fa fab).2 = Either.left e) := by
  constructor
  · intro e he
    simp [TE.ap, Task.ap, Task.map, he, Either.ap]
  · intro g e hg he
    simp [TE.ap, Task.ap, Task.map, hg, he, Either.ap]

/-- Witness for C8: two failed inputs; the function side's error `1` is
propagated alone. -/
theorem ap_failure_policy_witness :
    (([(0 : Nat)], Either.left 1) : TaskEither Nat Nat (Nat → Nat)).2 = Either.left 1
      ∧ (TE.ap (([(5 : Nat)], Either.left 2) : TaskEither Nat Nat Nat)
          (([(0 : Nat)], Either.left 1) : TaskEither Nat Nat (Nat → Nat))).2
        = Either.left 1 :=
  ⟨rfl,
    (ap_failure_policy Nat Nat Nat Nat ([0], Either.left 1) ([5], Either.left 2)).1
      1 rfl⟩

end ClaimsAp

/-- Modelled from the spec: the host-level outcome of invoking a deferred
computation — it either fulfills with a value or rejects with a reason of
type `τ`.  An AsyncResult must only ever fulfill (with a `Result`); a
`rejected` outcome escaping is exactly an uncaught rejection. -/
inductive POutcome (τ α : Type) : Type where
  | fulfilled (a : α) : POutcome τ α
  | rejected (x : τ) : POutcome τ α

/-- A minimal universe of value types, so that AsyncResults holding
functions (as needed by `ap`) can be quantified over. -/
inductive Ty : Type where
  | base : Ty
  | arrow (dom cod : Ty) : Ty

/-- Interpretation of the value types. -/
def Ty.denote : Ty → Type
  | .base => Nat
  | .arrow a b => a.denote → b.denote

/-- The AsyncResults built from the module's operations (error type fixed to
`Nat`, rejection reasons of type `τ`): the constructors `right`, `left`,
`tryCatch` over an arbitrary host promise, `taskify` over an arbitrary
node-style callback result, and the combinators `map`, `mapLeft`, `chain`,
`ap`, `orElse`, `alt` and `bracket` of the source. -/
inductive TEExpr (τ : Type) : Ty → Type where
  | rightE {t : Ty} (a : t.denote) : TEExpr τ t
  | leftE {t : Ty} (e : Nat) : TEExpr τ t
  | tryCatchE {t : Ty} (p : POutcome τ t.denote) (onRejected : τ → Nat) : TEExpr τ t
  | taskifyE {t : Ty} (cb : Either Nat t.denote) : TEExpr τ t
  | mapE {a b : Ty} (f : a.denote → b.denote) (ma : TEExpr τ a) : TEExpr τ b
  | mapLeftE {t : Ty} (f : Nat → Nat) (ma : TEExpr τ t) : TEExpr τ t
  | chainE {a b : Ty} (f : a.denote → TEExpr τ b) (ma : TEExpr τ a) : TEExpr τ b
  | apE {a b : Ty} (fab : TEExpr τ (.arrow a b)) (fa : TEExpr τ a) : TEExpr τ b
  | orElseE {t : Ty} (onLeft : Nat → TEExpr τ t) (ma : TEExpr τ t) : TEExpr τ t
  | altE {t : Ty} (that : Unit → TEExpr τ t) (ma : TEExpr τ t) : TEExpr τ t
  | bracketE {a b : Ty} (acquire : TEExpr τ a) (use : a.denote → TEExpr τ b)
      (release : a.denote → Either Nat b.denote → TEExpr τ .base) : TEExpr τ b

/-- The host-level result of invoking an AsyncResult built from the module's
operations, with the rejection channel kept explicit.  Each case mirrors the
source operation over the promise semantics modelled from the spec: a
rejected sub-computation propagates its rejection (`then` on a rejected
promise), `tryCatch` converts a rejection of the wrapped operation into a
typed failure, `taskify` only ever resolves, and the combinators otherwise
behave as in the `Task`/`Either` embedding above. -/
def evalP {τ : Type} : {t : Ty} → TEExpr τ t → POutcome τ (Either Nat t.denote)
  | _, .rightE a => .fulfilled (Either.right a)
  | _, .leftE e => .fulfilled (Either.left e)
  | _, .tryCatchE p onRejected =>
    match p with
    | .fulfilled a => .fulfilled (Either.right a)
    | .rejected x => .fulfilled (Either.left (onRejected x))
  | _, .taskifyE cb => .fulfilled cb
  | _, .mapE f ma =>
    match evalP ma with
    | .rejected x => .rejected x
    | .fulfilled e => .fulfilled (Either.map f e)
  | _, .mapLeftE f ma =>
    match evalP ma with
    | .rejected x => .rejected x
    | .fulfilled (Either.left e) => .fulfilled (Either.left (f e))
    | .fulfilled (Either.right a) => .fulfilled (Either.right a)
  | _, .chainE f ma =>
    match evalP ma with
    | .rejected x => .rejected x
    | .fulfilled (Either.left e) => .fulfilled (Either.left e)
    | .fulfilled (Either.right a) => evalP (f a)
  | _, .apE fab fa =>
    match evalP fab with
    | .rejected x => .rejected x
    | .fulfilled gab =>
      match evalP fa with
      | .rejected x => .rejected x
      | .fulfilled ga => .fulfilled (Either.ap gab ga)
  | _, .orElseE onLeft ma =>
    match evalP ma with
    | .rejected x => .rejected x
    | .fulfilled (Either.left e) => evalP (onLeft e)
    | .fulfilled (Either.right a) => .fulfilled (Either.right a)
  | _, .altE that ma =>
    match evalP ma with
    | .rejected x => .rejected x
    | .fulfilled (Either.left _) => evalP (that ())
    | .fulfilled (Either.right a) => .fulfilled (Either.right a)
  | _, .bracketE acquire use release =>
    match evalP acquire with
    | .rejected x => .rejected x
    | .fulfilled (Either.left e) => .fulfilled (Either.left e)
    | .fulfilled (Either.right a) =>
      match evalP (use a) with
      | .rejected x => .rejected x
      | .fulfilled eu =>
        match evalP (release a eu) with
        | .rejected x => .rejected x
        | .fulfilled (Either.left e2) => .fulfilled (Either.left e2)
        | .fulfilled (Either.right _) => .fulfilled eu

/-- C9: an AsyncResult built from the module's operations never produces an
uncaught rejection when invoked: whatever the wrapped host computations
reject with, evaluation always fulfills with a `Result` — every failure path
is captured into the `Failure` variant before the computation settles. -/
theorem asyncResult_never_rejects (τ : Type) (t : Ty) (e : TEExpr τ t) :
    ∃ r, evalP e = POutcome.fulfilled r := by
  induction e with
  | rightE a => exact ⟨_, rfl⟩
  | leftE e => exact ⟨_, rfl⟩
  | tryCatchE p onRejected => cases p <;> exact ⟨_, rfl⟩
  | taskifyE cb => exact ⟨_, rfl⟩
  | mapE f ma ih =>
    obtain ⟨r, hr⟩ := ih
    exact ⟨Either.map f r, by simp [evalP, hr]⟩
  | mapLeftE f ma ih =>
    obtain ⟨r, hr⟩ := ih
    cases r with
    | left e => exact ⟨Either.left (f e), by simp [evalP, hr]⟩
    | right a => exact ⟨Either.right a, by simp [evalP, hr]⟩
  | chainE f ma ihf ihma =>
    obtain ⟨r, hr⟩ := ihma
    cases r with
    | left e => exact ⟨Either.left e, by simp [evalP, hr]⟩
    | right a =>
      obtain ⟨r2, hr2⟩ := ihf a
      exact ⟨r2, by simp [evalP, hr, hr2]⟩
  | apE fab fa ihab iha =>
    obtain ⟨rab, hab⟩ := ihab
    obtain ⟨ra, ha⟩ := iha
    exact ⟨Either.ap rab ra, by simp [evalP, hab, ha]⟩
  | orElseE onLeft ma ihf ihma =>
    obtain ⟨r, hr⟩ := ihma
    cases r with
    | left e =>
      obtain ⟨r2, hr2⟩ := ihf e
      exact ⟨r2, by simp [evalP, hr, hr2]⟩
    | right a => exact ⟨Either.right a, by simp [evalP, hr]⟩
  | altE that ma ihf ihma =>
    obtain ⟨r, hr⟩ := ihma
    cases r with
    | left e =>
      obtain ⟨r2, hr2⟩ := ihf ()
      exact ⟨r2, by simp [evalP, hr, hr2]⟩
    | right a => exact ⟨Either.right a, by simp [evalP, hr]⟩
  | bracketE acquire use release iha ihu ihr =>
    obtain ⟨ra, ha⟩ := iha
    cases ra with
    | left e => exact ⟨Either.left e, by simp [evalP, ha]⟩
    | right a =>
      obtain ⟨ru, hu⟩ := ihu a
      obtain ⟨rr, hr⟩ := ihr a ru
      cases rr with
      | left e2 => exact ⟨Either.left e2, by simp [evalP, ha, hu, hr]⟩
      | right b => exact ⟨ru, by simp [evalP, ha, hu, hr]⟩

end FpTs
